import Mathlib

/-!
# Verification of the ClearHear transcript extractor

This file gives a shallow embedding of the response-parsing logic of
`analyze_audio_file` in `src/audio.py` and proves the specified properties
of it.

The Python code computes `full_text = (response.text or "").strip()` and then
runs two independent regex searches

  `re.search(r"<<<RAW_TRANSCRIPT_START>>>\s*(.*?)\s*<<<RAW_TRANSCRIPT_END>>>", full_text, re.DOTALL)`
  `re.search(r"<<<ACCESSIBLE_NOTES_START>>>\s*(.*?)\s*<<<ACCESSIBLE_NOTES_END>>>", full_text, re.DOTALL)`

taking `match.group(1).strip()` on success and a fallback value otherwise.

Because the pattern is `LITERAL\s*(.*?)\s*LITERAL` with `re.DOTALL`, and both
end markers begin with the non-whitespace character `<`, the Python semantics
of `search` + `group(1).strip()` is exactly:

  * find the first occurrence of the start marker (leftmost-match: the regex
    engine tries each position from the left, and a later start-marker
    occurrence can only succeed if the first one does, since any end marker
    lying after a later occurrence also lies after the first);
  * find the first occurrence of the end marker at or after the end of that
    start marker (`\s*` runs cannot skip over an end-marker occurrence, as
    whitespace runs stop at `<`; the lazy `(.*?)` therefore stops at the
    first end marker);
  * return the text strictly between the two, with leading and trailing
    whitespace stripped (the greedy `\s*` groups plus the explicit
    `.strip()` remove exactly the maximal whitespace runs at both ends).

Strings are modelled as `List Char`. Whitespace is modelled by the ASCII
whitespace characters (the inputs considered here contain no further Unicode
whitespace, where Python's `str.strip` and `\s` would also apply).
-/

set_option maxRecDepth 16384

namespace ClearHear

/-- The whitespace test used by Python's `str.strip()` and the regex class
`\s`, restricted to ASCII: space, tab, newline, vertical tab, form feed,
carriage return. -/
def pyIsSpace (c : Char) : Bool :=
  c == ' ' || c == '\t' || c == '\n' || c == '\x0b' || c == '\x0c' || c == '\r'

/-- Python's `str.strip()`: remove leading and trailing whitespace. -/
def pyStrip (s : List Char) : List Char :=
  List.rdropWhile pyIsSpace (s.dropWhile pyIsSpace)

/-- Index of the first occurrence of `pat` as a contiguous subsequence of the
text (the position at which `re.search` anchors a literal pattern). -/
def findSub (pat : List Char) : List Char → Option Nat
  | [] => if pat <+: ([] : List Char) then some 0 else none
  | c :: t => if pat <+: c :: t then some 0 else (findSub pat t).map (· + 1)

/-- `<<<RAW_TRANSCRIPT_START>>>` (src/audio.py line 133). -/
def RAW_START : List Char := "<<<RAW_TRANSCRIPT_START>>>".data

/-- `<<<RAW_TRANSCRIPT_END>>>` (src/audio.py line 133). -/
def RAW_END : List Char := "<<<RAW_TRANSCRIPT_END>>>".data

/-- `<<<ACCESSIBLE_NOTES_START>>>` (src/audio.py line 138). -/
def NOTES_START : List Char := "<<<ACCESSIBLE_NOTES_START>>>".data

/-- `<<<ACCESSIBLE_NOTES_END>>>` (src/audio.py line 138). -/
def NOTES_END : List Char := "<<<ACCESSIBLE_NOTES_END>>>".data

/-- The fixed fallback notice prepended when the accessible-notes pair is not
found (src/audio.py line 151). -/
def FALLBACK_NOTICE : List Char :=
  "Accessible notes could not be parsed from the model response.\n\n".data

/-- One regex search
`re.search(START + r"\s*(.*?)\s*" + END, text, re.DOTALL)` followed by
`.group(1).strip()` on success (see the header comment for why this list
computation is the Python semantics of that search): first occurrence of the
start marker, then the first occurrence of the end marker after it, and the
stripped text strictly between them. -/
def extractSection (startMarker endMarker text : List Char) : Option (List Char) :=
  (findSub startMarker text).bind fun i =>
    let rest := text.drop (i + startMarker.length)
    (findSub endMarker rest).map fun j => pyStrip (rest.take j)

/-- The record returned by `analyze_audio_file` (src/audio.py lines 153-156):
both fields are always present strings. -/
structure ExtractResult where
  raw_transcript : List Char
  accessible_transcript : List Char
deriving DecidableEq, Repr

/-- Lines 129-156 of src/audio.py, operating on the already-stripped
`full_text`: two independent searches with their fallbacks. -/
def extractTranscripts (full_text : List Char) : ExtractResult :=
  { raw_transcript :=
      match extractSection RAW_START RAW_END full_text with
      | some c => c
      | none => full_text,
    accessible_transcript :=
      match extractSection NOTES_START NOTES_END full_text with
      | some c => c
      | none => FALLBACK_NOTICE ++ full_text }

/-- The extraction pipeline applied to the raw response text: line 126 of
src/audio.py strips the input (`full_text = (response.text or "").strip()`)
before the searches run.  This is the spec's `extract`. -/
def extract (responseText : List Char) : ExtractResult :=
  extractTranscripts (pyStrip responseText)

/-- Decides whether `t` contains a complete marker pair: an occurrence of the
start marker together with an occurrence of the end marker starting at or
after the end of the start marker.  (`re.search` for
`START\s*(.*?)\s*END` succeeds exactly on such texts.) -/
def hasMarkerPair (startMarker endMarker t : List Char) : Bool :=
  (List.range (t.length + 1)).any fun i =>
    startMarker.isPrefixOf (t.drop i) &&
      (List.range (t.length + 1)).any fun j =>
        decide (i + startMarker.length ≤ j) && endMarker.isPrefixOf (t.drop j)

/-- The network interactions of `analyze_audio_file`, in program order:
`genai.Client(...)` (line 21), `client.files.upload(...)` (line 24),
`client.models.generate_content(...)` (line 121). -/
inductive NetworkStep where
  | createClient
  | uploadFile
  | generateContent
deriving DecidableEq, Repr

/-- The error message of the `RuntimeError` raised on line 19 of
src/audio.py. -/
def apiKeyErrorMsg : List Char :=
  "No Gemini API key provided to analyze_audio_file().".data

/-- Observable outcome of a call to `analyze_audio_file`: the network steps
performed, and either a raised error or the returned record. -/
structure AnalyzeOutcome where
  networkSteps : List NetworkStep
  result : Except (List Char) ExtractResult
deriving Repr

/-- `analyze_audio_file(audio_path, api_key)` (src/audio.py lines 5-156).
The upstream model response is an input of the model (`none` standing for a
response whose `.text` is `None`; line 126 replaces a falsy `.text` by `""`).
Python's `if not api_key` is true for a `str` argument exactly when the
string is empty. -/
def analyze_audio_file (audio_path api_key : List Char)
    (responseText : Option (List Char)) : AnalyzeOutcome :=
  if api_key.isEmpty then
    { networkSteps := [], result := .error apiKeyErrorMsg }
  else
    { networkSteps := [.createClient, .uploadFile, .generateContent],
      result := .ok (extract (responseText.getD [])) }

/-! ## Facts about `findSub` -/

lemma findSub_some_occurs (pat : List Char) :
    ∀ (t : List Char) (i : Nat), findSub pat t = some i → pat <+: t.drop i := by
  intro t
  induction t with
  | nil =>
    intro i h
    simp only [findSub] at h
    split at h
    · cases h
      simpa using ‹pat <+: ([] : List Char)›
    · cases h
  | cons c t ih =>
    intro i h
    simp only [findSub] at h
    split at h
    · cases h
      simpa using ‹pat <+: c :: t›
    · rw [Option.map_eq_some'] at h
      obtain ⟨j, hj, rfl⟩ := h
      rw [List.drop_succ_cons]
      exact ih j hj

lemma findSub_min (pat : List Char) :
    ∀ (t : List Char) (i : Nat), findSub pat t = some i →
      ∀ j, j < i → ¬ pat <+: t.drop j := by
  intro t
  induction t with
  | nil =>
    intro i h
    simp only [findSub] at h
    split at h
    · cases h
      intro j hj
      omega
    · cases h
  | cons c t ih =>
    intro i h
    simp only [findSub] at h
    split at h
    · cases h
      intro j hj
      omega
    · rw [Option.map_eq_some'] at h
      obtain ⟨k, hk, rfl⟩ := h
      intro j hj
      match j with
      | 0 => simpa using ‹¬ pat <+: c :: t›
      | j + 1 =>
        rw [List.drop_succ_cons]
        exact ih k hk j (by omega)

lemma findSub_none_occurs (pat : List Char) :
    ∀ (t : List Char), findSub pat t = none → ∀ i, ¬ pat <+: t.drop i := by
  intro t
  induction t with
  | nil =>
    intro h i
    simp only [findSub] at h
    split at h
    · cases h
    · simpa using ‹¬ pat <+: ([] : List Char)›
  | cons c t ih =>
    intro h i
    simp only [findSub] at h
    split at h
    · cases h
    · rw [Option.map_eq_none'] at h
      match i with
      | 0 => simpa using ‹¬ pat <+: c :: t›
      | i + 1 =>
        rw [List.drop_succ_cons]
        exact ih h i

lemma findSub_eq_some (pat t : List Char) (i : Nat)
    (hocc : pat <+: t.drop i) (hmin : ∀ j, j < i → ¬ pat <+: t.drop j) :
    findSub pat t = some i := by
  cases hfind : findSub pat t with
  | none => exact absurd hocc (findSub_none_occurs pat t hfind i)
  | some j =>
    rcases Nat.lt_trichotomy i j with hij | hij | hij
    · exact absurd hocc (findSub_min pat t j hfind i hij)
    · rw [hij]
    · exact absurd (findSub_some_occurs pat t j hfind) (hmin j hij)

/-- An occurrence of `pat` at position `j` lies inside any initial segment of
length at least `j + pat.length`. -/
lemma occurs_infix_take (pat t : List Char) (j n : Nat)
    (hocc : pat <+: t.drop j) (hn : j + pat.length ≤ n) :
    pat <:+: t.take n := by
  obtain ⟨u, hu⟩ := hocc
  have hjn : j ≤ n := by omega
  refine ⟨t.take j, u.take (n - j - pat.length), ?_⟩
  have h1 : t.take n = t.take j ++ (t.drop j).take (n - j) := by
    rw [← List.take_add]
    congr 1
    omega
  have h2 : (t.drop j).take (n - j) = pat ++ u.take (n - j - pat.length) := by
    rw [← hu, List.take_append_eq_append_take,
      List.take_of_length_le (by omega : pat.length ≤ n - j)]
  rw [h1, h2, List.append_assoc]

lemma occurs_infix_whole (pat t : List Char) (j : Nat) (hocc : pat <+: t.drop j) :
    pat <:+: t := by
  obtain ⟨u, hu⟩ := hocc
  exact ⟨t.take j, u, by rw [List.append_assoc, hu, List.take_append_drop]⟩

/-- Initial segment of a text of the form `pre ++ pat ++ rest` that ends one
character short of the end of the distinguished `pat`: it equals
`pre ++ pat.dropLast`, and so covers all of `pat`'s earlier occurrences. -/
lemma take_until_last_of_shape (pre pat rest : List Char) (hpat : pat ≠ []) :
    (pre ++ (pat ++ rest)).take (pre.length + pat.length - 1)
      = pre ++ pat.dropLast := by
  have hlen : 1 ≤ pat.length := by
    cases pat
    · exact absurd rfl hpat
    · simp
  have h1 : pre.length + pat.length - 1 = pre.length + (pat.length - 1) := by omega
  rw [h1, List.take_add, List.take_left, List.drop_left,
    List.take_append_eq_append_take,
    Nat.sub_eq_zero_of_le (by omega : pat.length - 1 ≤ pat.length),
    List.take_zero, List.append_nil, List.dropLast_eq_take]

/-- If `pat` does not occur in `pre ++ pat.dropLast`, then its first occurrence
in `pre ++ pat ++ rest` is the distinguished one at position `pre.length`. -/
lemma findSub_shape (pat pre rest : List Char)
    (h : ¬ pat <:+: (pre ++ pat.dropLast)) :
    findSub pat (pre ++ (pat ++ rest)) = some pre.length := by
  have hpat : pat ≠ [] := by
    rintro rfl
    exact h List.nil_infix
  apply findSub_eq_some
  · rw [List.drop_left' (rfl : pre.length = pre.length)]
    exact ⟨rest, rfl⟩
  · intro j hj hocc
    apply h
    rw [← take_until_last_of_shape pre pat rest hpat]
    have hlen : 1 ≤ pat.length := by
      cases pat
      · exact absurd rfl hpat
      · simp
    exact occurs_infix_take pat _ j _ hocc (by omega)

/-! ## Facts about `pyStrip` -/

lemma pyStrip_infix_self (s : List Char) : pyStrip s <:+: s := by
  have h1 : pyStrip s <+: s.dropWhile pyIsSpace := List.rdropWhile_prefix _ _
  have h2 : s.dropWhile pyIsSpace <:+ s := List.dropWhile_suffix _
  obtain ⟨u, hu⟩ := h1
  obtain ⟨v, hv⟩ := h2
  exact ⟨v, u, by rw [List.append_assoc, hu, hv]⟩

lemma dropWhile_pyStrip (s : List Char) :
    (pyStrip s).dropWhile pyIsSpace = pyStrip s := by
  cases hp : pyStrip s with
  | nil => simp
  | cons c u =>
    have h1 : pyStrip s <+: s.dropWhile pyIsSpace := List.rdropWhile_prefix _ _
    rw [hp] at h1
    obtain ⟨v, hv⟩ := h1
    have hne : s.dropWhile pyIsSpace ≠ [] := by
      rw [← hv]
      simp
    have hc : pyIsSpace ((s.dropWhile pyIsSpace).head hne) = false :=
      List.head_dropWhile_not _ _ hne
    have hhead : (s.dropWhile pyIsSpace).head hne = c := by
      simp only [← hv, List.cons_append, List.head_cons]
    rw [hhead] at hc
    simp [List.dropWhile_cons, hc]

lemma pyStrip_idem (s : List Char) : pyStrip (pyStrip s) = pyStrip s := by
  show List.rdropWhile pyIsSpace ((pyStrip s).dropWhile pyIsSpace) = pyStrip s
  rw [dropWhile_pyStrip]
  exact List.rdropWhile_idempotent pyIsSpace (s.dropWhile pyIsSpace)

lemma pyStrip_eq_nil (w : List Char) (h : ∀ c ∈ w, pyIsSpace c = true) :
    pyStrip w = [] := by
  unfold pyStrip
  rw [List.dropWhile_eq_nil_iff.mpr h]
  simp [List.rdropWhile]

/-! ## The behaviour of one marker search -/

lemma findSub_eq_none (pat t : List Char) (h : ¬ pat <:+: t) :
    findSub pat t = none := by
  cases hfind : findSub pat t with
  | none => rfl
  | some i =>
    exact absurd (occurs_infix_whole pat t i (findSub_some_occurs pat t i hfind)) h

/-- The value of a search on a text of the shape
`pre ++ START ++ content ++ END ++ post` in which the displayed `START` is the
first occurrence of the start marker and the displayed `END` is the first
occurrence of the end marker after it: the stripped `content`. -/
lemma extractSection_shape (sM eM pre a post : List Char)
    (hs : ¬ sM <:+: (pre ++ sM.dropLast))
    (he : ¬ eM <:+: (a ++ eM.dropLast)) :
    extractSection sM eM (pre ++ (sM ++ (a ++ (eM ++ post))))
      = some (pyStrip a) := by
  have hdrop : (pre ++ (sM ++ (a ++ (eM ++ post)))).drop (pre.length + sM.length)
      = a ++ (eM ++ post) := by
    rw [← List.append_assoc]
    exact List.drop_left' (by rw [List.length_append])
  simp only [extractSection]
  rw [findSub_shape sM pre _ hs]
  simp only [Option.some_bind]
  rw [hdrop, findSub_shape eM a post he]
  simp only [Option.map_some']
  rw [List.take_left]

/-- If the text has no complete marker pair — no occurrence of the start
marker followed (at or after its end) by an occurrence of the end marker —
then the search fails. -/
lemma extractSection_eq_none_of_no_pair (sM eM t : List Char)
    (hsM : sM ≠ []) (heM : eM ≠ [])
    (h : hasMarkerPair sM eM t = false) : extractSection sM eM t = none := by
  cases hfind : findSub sM t with
  | none => simp [extractSection, hfind]
  | some i =>
    cases hfind2 : findSub eM (t.drop (i + sM.length)) with
    | none => simp [extractSection, hfind, hfind2]
    | some j =>
      exfalso
      have hocc1 : sM <+: t.drop i := findSub_some_occurs _ _ _ hfind
      have hocc2 : eM <+: t.drop (i + sM.length + j) := by
        have h2 := findSub_some_occurs _ _ _ hfind2
        rwa [List.drop_drop] at h2
      have hsMlen : 0 < sM.length := List.length_pos.mpr hsM
      have heMlen : 0 < eM.length := List.length_pos.mpr heM
      have hb1 : i + sM.length ≤ t.length := by
        have hl := hocc1.length_le
        rw [List.length_drop] at hl
        by_contra hcon
        have : t.drop i = [] := List.drop_eq_nil_iff.mpr (by omega)
        rw [this, List.prefix_nil] at hocc1
        exact hsM hocc1
      have hb2 : i + sM.length + j < t.length := by
        by_contra hcon
        have : t.drop (i + sM.length + j) = [] :=
          List.drop_eq_nil_iff.mpr (by omega)
        rw [this, List.prefix_nil] at hocc2
        exact heM hocc2
      have htrue : hasMarkerPair sM eM t = true := by
        unfold hasMarkerPair
        rw [List.any_eq_true]
        refine ⟨i, List.mem_range.mpr (by omega), ?_⟩
        rw [Bool.and_eq_true]
        refine ⟨List.isPrefixOf_iff_prefix.mpr hocc1, ?_⟩
        rw [List.any_eq_true]
        refine ⟨i + sM.length + j, List.mem_range.mpr (by omega), ?_⟩
        rw [Bool.and_eq_true]
        exact ⟨decide_eq_true (by omega), List.isPrefixOf_iff_prefix.mpr hocc2⟩
      rw [htrue] at h
      cases h

/-- A successful search never returns a value containing the end marker: the
lazy match stops at the first end marker after the start marker. -/
lemma extractSection_no_end_marker (sM eM t c : List Char) (heM : eM ≠ [])
    (h : extractSection sM eM t = some c) : ¬ eM <:+: c := by
  intro hinf
  simp only [extractSection] at h
  cases hfind : findSub sM t with
  | none =>
    rw [hfind] at h
    cases h
  | some i =>
    rw [hfind] at h
    simp only [Option.some_bind] at h
    cases hfind2 : findSub eM (t.drop (i + sM.length)) with
    | none =>
      rw [hfind2] at h
      cases h
    | some j =>
      rw [hfind2] at h
      simp only [Option.map_some', Option.some.injEq] at h
      rw [← h] at hinf
      have h1 : eM <:+: (t.drop (i + sM.length)).take j :=
        hinf.trans (pyStrip_infix_self _)
      obtain ⟨u, v, huv⟩ := h1
      have heMlen : 0 < eM.length := List.length_pos.mpr heM
      have hulen : u.length + eM.length + v.length ≤ j := by
        have hlt := List.length_take_le j (t.drop (i + sM.length))
        rw [← huv] at hlt
        simp only [List.length_append] at hlt
        omega
      have hocc : eM <+: (t.drop (i + sM.length)).drop u.length := by
        have hsplit : t.drop (i + sM.length)
            = u ++ (eM ++ (v ++ (t.drop (i + sM.length)).drop j)) := by
          conv_lhs => rw [← List.take_append_drop j (t.drop (i + sM.length))]
          rw [← huv]
          simp [List.append_assoc]
        rw [hsplit, List.drop_left' rfl]
        exact ⟨v ++ (t.drop (i + sM.length)).drop j, rfl⟩
      exact findSub_min _ _ _ hfind2 u.length (by omega) hocc

/-- When none of the marker strings occurs in the response text, both
searches fail and both fallbacks fire. -/
lemma extract_no_markers (s : List Char)
    (h1 : ¬ RAW_START <:+: s) (h3 : ¬ NOTES_START <:+: s) :
    extract s = ⟨pyStrip s, FALLBACK_NOTICE ++ pyStrip s⟩ := by
  have hs1 : ¬ RAW_START <:+: pyStrip s := fun h => h1 (h.trans (pyStrip_infix_self s))
  have hs3 : ¬ NOTES_START <:+: pyStrip s := fun h => h3 (h.trans (pyStrip_infix_self s))
  have f1 : findSub RAW_START (pyStrip s) = none := findSub_eq_none _ _ hs1
  have f3 : findSub NOTES_START (pyStrip s) = none := findSub_eq_none _ _ hs3
  unfold extract extractTranscripts
  rw [show extractSection RAW_START RAW_END (pyStrip s) = none by
        simp [extractSection, f1],
      show extractSection NOTES_START NOTES_END (pyStrip s) = none by
        simp [extractSection, f3]]

/-! ## The claims -/

/-- Claim C1: for every input containing both well-formed marker pairs in
order — the displayed occurrences being the first complete ones — the
extractor returns exactly the whitespace-trimmed inner content of each pair,
verbatim; whitespace-only content trims to the empty string; and the spec's
concrete scenario yields `Hello` / `World`. -/
theorem raw_and_notes_extracted_verbatim :
    (∀ pre a mid b post : List Char,
      ¬ RAW_START <:+: (pre ++ RAW_START.dropLast) →
      ¬ RAW_END <:+: (a ++ RAW_END.dropLast) →
      ¬ NOTES_START <:+:
        (pre ++ RAW_START ++ a ++ RAW_END ++ mid ++ NOTES_START.dropLast) →
      ¬ NOTES_END <:+: (b ++ NOTES_END.dropLast) →
      extractTranscripts
          (pre ++ RAW_START ++ a ++ RAW_END ++ mid
            ++ NOTES_START ++ b ++ NOTES_END ++ post)
        = ⟨pyStrip a, pyStrip b⟩)
    ∧ (∀ w : List Char, (∀ c ∈ w, pyIsSpace c = true) → pyStrip w = [])
    ∧ extract "<<<RAW_TRANSCRIPT_START>>>\nHello\n<<<RAW_TRANSCRIPT_END>>>\n\n<<<ACCESSIBLE_NOTES_START>>>\nWorld\n<<<ACCESSIBLE_NOTES_END>>>".data
        = ⟨"Hello".data, "World".data⟩ := by
  refine ⟨?_, fun w h => pyStrip_eq_nil w h, by decide⟩
  intro pre a mid b post h1 h2 h3 h4
  have hA : extractSection RAW_START RAW_END
      (pre ++ (RAW_START ++ (a ++ (RAW_END
        ++ (mid ++ (NOTES_START ++ (b ++ (NOTES_END ++ post))))))))
      = some (pyStrip a) :=
    extractSection_shape RAW_START RAW_END pre a _ h1 h2
  have hB : extractSection NOTES_START NOTES_END
      (pre ++ (RAW_START ++ (a ++ (RAW_END
        ++ (mid ++ (NOTES_START ++ (b ++ (NOTES_END ++ post))))))))
      = some (pyStrip b) := by
    have hT : pre ++ (RAW_START ++ (a ++ (RAW_END
          ++ (mid ++ (NOTES_START ++ (b ++ (NOTES_END ++ post)))))))
        = (pre ++ (RAW_START ++ (a ++ (RAW_END ++ mid))))
          ++ (NOTES_START ++ (b ++ (NOTES_END ++ post))) := by
      simp [List.append_assoc]
    rw [hT]
    exact extractSection_shape NOTES_START NOTES_END _ b post
      (by simpa only [List.append_assoc] using h3) h4
  simp only [List.append_assoc] at hA hB ⊢
  simp only [extractTranscripts]
  rw [hA, hB]

theorem raw_and_notes_extracted_verbatim_witness :
    extractTranscripts (([] : List Char) ++ RAW_START ++ " Hi ".data ++ RAW_END
        ++ "\n".data ++ NOTES_START ++ " Ho ".data ++ NOTES_END ++ [])
      = ⟨"Hi".data, "Ho".data⟩ := by
  have h := raw_and_notes_extracted_verbatim.1 [] " Hi ".data "\n".data
    " Ho ".data [] (by decide) (by decide) (by decide) (by decide)
  rw [h]
  decide

/-- Claim C2: whenever the trimmed input has no complete RAW_TRANSCRIPT
marker pair (markers missing, reversed, or unterminated all are instances of
this), `raw_transcript` is the entire trimmed input text.  The statement
quantifies over all inputs, whatever the ACCESSIBLE_NOTES search does on
them: the two searches are independent. -/
theorem raw_fallback_is_full_text (s : List Char)
    (h : hasMarkerPair RAW_START RAW_END (pyStrip s) = false) :
    (extract s).raw_transcript = pyStrip s := by
  have hnone := extractSection_eq_none_of_no_pair RAW_START RAW_END
    (pyStrip s) (by decide) (by decide) h
  simp only [extract, extractTranscripts]
  rw [hnone]

theorem raw_fallback_is_full_text_witness :
    (extract " reversed: <<<RAW_TRANSCRIPT_END>>> then <<<RAW_TRANSCRIPT_START>>> ".data).raw_transcript
      = pyStrip " reversed: <<<RAW_TRANSCRIPT_END>>> then <<<RAW_TRANSCRIPT_START>>> ".data :=
  raw_fallback_is_full_text _ (by decide)

/-- Claim C3: whenever the trimmed input has no complete ACCESSIBLE_NOTES
marker pair, `accessible_transcript` is the fixed notice string followed by
the entire trimmed input text, whatever the RAW_TRANSCRIPT search does. -/
theorem notes_fallback_is_notice_plus_text (s : List Char)
    (h : hasMarkerPair NOTES_START NOTES_END (pyStrip s) = false) :
    (extract s).accessible_transcript = FALLBACK_NOTICE ++ pyStrip s := by
  have hnone := extractSection_eq_none_of_no_pair NOTES_START NOTES_END
    (pyStrip s) (by decide) (by decide) h
  simp only [extract, extractTranscripts]
  rw [hnone]

theorem notes_fallback_is_notice_plus_text_witness :
    (extract "<<<RAW_TRANSCRIPT_START>>>ok<<<RAW_TRANSCRIPT_END>>> no notes".data).accessible_transcript
      = FALLBACK_NOTICE
        ++ pyStrip "<<<RAW_TRANSCRIPT_START>>>ok<<<RAW_TRANSCRIPT_END>>> no notes".data :=
  notes_fallback_is_notice_plus_text _ (by decide)

/-- Claim C4 is false as stated: on an input with two start markers before
the first end marker, the extracted content runs from the first start marker
to the first end marker and therefore does span (indeed contains) the
duplicate start marker. -/
theorem duplicate_start_spans_counterexample :
    RAW_START <:+:
      (extract "<<<RAW_TRANSCRIPT_START>>>alpha<<<RAW_TRANSCRIPT_START>>>beta<<<RAW_TRANSCRIPT_END>>>".data).raw_transcript
    ∧ (extract "<<<RAW_TRANSCRIPT_START>>>alpha<<<RAW_TRANSCRIPT_START>>>beta<<<RAW_TRANSCRIPT_END>>>".data).raw_transcript
      = "alpha<<<RAW_TRANSCRIPT_START>>>beta".data := by
  exact ⟨by decide, by decide⟩

/-- Claim C4 (amended): matching is non-greedy — the content is the region
between the first start marker and the first end marker after it, so it stops
at the first end marker, but it may span a duplicate start marker occurring
in that region. -/
theorem duplicate_start_first_end_wins (a c post : List Char)
    (h : ¬ RAW_END <:+: (a ++ RAW_START ++ c ++ RAW_END.dropLast)) :
    (extractTranscripts
        (RAW_START ++ a ++ RAW_START ++ c ++ RAW_END ++ post)).raw_transcript
      = pyStrip (a ++ RAW_START ++ c) := by
  have hA := extractSection_shape RAW_START RAW_END []
    (a ++ (RAW_START ++ c)) post (by decide)
    (by simpa only [List.append_assoc] using h)
  simp only [List.nil_append, List.append_assoc] at hA ⊢
  simp only [extractTranscripts]
  rw [hA]

theorem duplicate_start_first_end_wins_witness :
    (extractTranscripts
        (RAW_START ++ "x".data ++ RAW_START ++ "y".data ++ RAW_END ++ [])).raw_transcript
      = pyStrip ("x".data ++ RAW_START ++ "y".data) :=
  duplicate_start_first_end_wins "x".data "y".data [] (by decide)

/-- Claim C5: the empty input yields an empty `raw_transcript` and an
`accessible_transcript` that is the fixed fallback notice followed by
nothing. -/
theorem empty_input_result :
    extract [] = ⟨[], FALLBACK_NOTICE ++ ([] : List Char)⟩ := by decide

/-- Claim C6: extraction is total — for every input string it returns a
well-formed record in which both fields are present strings. -/
theorem result_always_wellformed (s : List Char) :
    ∃ rt ac : List Char, extract s = ⟨rt, ac⟩ :=
  ⟨(extract s).raw_transcript, (extract s).accessible_transcript, rfl⟩

/-- Claim C7: with a missing (empty, hence falsy) API key,
`analyze_audio_file` raises the configuration `RuntimeError` and performs no
network step at all: no client creation, no upload, no model call. -/
theorem missing_api_key_fatal_before_network
    (audio_path api_key : List Char) (responseText : Option (List Char))
    (h : api_key = []) :
    analyze_audio_file audio_path api_key responseText
      = ⟨[], Except.error apiKeyErrorMsg⟩ := by
  subst h
  rfl

theorem missing_api_key_fatal_before_network_witness :
    analyze_audio_file "lecture.mp3".data [] (some "text".data)
      = ⟨[], Except.error apiKeyErrorMsg⟩ :=
  missing_api_key_fatal_before_network "lecture.mp3".data [] (some "text".data) rfl

/-- Claim C8: on an input containing none of the four marker strings, both
fallbacks fire, and re-running extraction on the produced `raw_transcript`
reproduces the same record — extraction is idempotent on its own fallback
output. -/
theorem fallback_idempotent (s : List Char)
    (h1 : ¬ RAW_START <:+: s) (h2 : ¬ RAW_END <:+: s)
    (h3 : ¬ NOTES_START <:+: s) (h4 : ¬ NOTES_END <:+: s) :
    extract s = ⟨pyStrip s, FALLBACK_NOTICE ++ pyStrip s⟩
    ∧ extract ((extract s).raw_transcript) = extract s := by
  have hx := extract_no_markers s h1 h3
  refine ⟨hx, ?_⟩
  have hraw : (extract s).raw_transcript = pyStrip s := by rw [hx]
  have g1 : ¬ RAW_START <:+: pyStrip s := fun h => h1 (h.trans (pyStrip_infix_self s))
  have g3 : ¬ NOTES_START <:+: pyStrip s := fun h => h3 (h.trans (pyStrip_infix_self s))
  rw [hraw, extract_no_markers (pyStrip s) g1 g3, hx, pyStrip_idem]

theorem fallback_idempotent_witness :
    extract " just plain text ".data
        = ⟨pyStrip " just plain text ".data,
            FALLBACK_NOTICE ++ pyStrip " just plain text ".data⟩
    ∧ extract ((extract " just plain text ".data).raw_transcript)
        = extract " just plain text ".data :=
  fallback_idempotent " just plain text ".data
    (by decide) (by decide) (by decide) (by decide)

/-- Claim C9: the two searches each cover the whole text, so a well-formed
RAW_TRANSCRIPT pair is extracted even when it appears after the
ACCESSIBLE_NOTES pair. -/
theorem order_independent_extraction (b mid a post : List Char)
    (h1 : ¬ NOTES_END <:+: (b ++ NOTES_END.dropLast))
    (h2 : ¬ RAW_START <:+:
      (NOTES_START ++ b ++ NOTES_END ++ mid ++ RAW_START.dropLast))
    (h3 : ¬ RAW_END <:+: (a ++ RAW_END.dropLast)) :
    extractTranscripts
        (NOTES_START ++ b ++ NOTES_END ++ mid ++ RAW_START ++ a ++ RAW_END ++ post)
      = ⟨pyStrip a, pyStrip b⟩ := by
  have hB : extractSection NOTES_START NOTES_END
      (([] : List Char) ++ (NOTES_START ++ (b ++ (NOTES_END
        ++ (mid ++ (RAW_START ++ (a ++ (RAW_END ++ post))))))))
      = some (pyStrip b) :=
    extractSection_shape NOTES_START NOTES_END [] b _ (by decide) h1
  have hA : extractSection RAW_START RAW_END
      ((NOTES_START ++ (b ++ (NOTES_END ++ mid)))
        ++ (RAW_START ++ (a ++ (RAW_END ++ post))))
      = some (pyStrip a) :=
    extractSection_shape RAW_START RAW_END _ a post
      (by simpa only [List.append_assoc] using h2) h3
  simp only [List.nil_append, List.append_assoc] at hA hB ⊢
  simp only [extractTranscripts]
  rw [hA, hB]

theorem order_independent_extraction_witness :
    extractTranscripts
        (NOTES_START ++ "n".data ++ NOTES_END ++ "\n".data
          ++ RAW_START ++ "r".data ++ RAW_END ++ [])
      = ⟨pyStrip "r".data, pyStrip "n".data⟩ :=
  order_independent_extraction "n".data "\n".data "r".data []
    (by decide) (by decide) (by decide)

/-- Claim C10: whenever a marker pair matches, the corresponding extracted
field does not contain that pair's end marker as a substring — the lazy match
stops at the first end marker after the matched start marker. -/
theorem extracted_never_contains_end_marker (s : List Char) :
    (∀ c, extractSection RAW_START RAW_END (pyStrip s) = some c →
      ¬ RAW_END <:+: (extract s).raw_transcript)
    ∧ (∀ c, extractSection NOTES_START NOTES_END (pyStrip s) = some c →
      ¬ NOTES_END <:+: (extract s).accessible_transcript) := by
  constructor
  · intro c hc
    have hne := extractSection_no_end_marker RAW_START RAW_END
      (pyStrip s) c (by decide) hc
    have hfield : (extract s).raw_transcript = c := by
      simp only [extract, extractTranscripts]
      rw [hc]
    rw [hfield]
    exact hne
  · intro c hc
    have hne := extractSection_no_end_marker NOTES_START NOTES_END
      (pyStrip s) c (by decide) hc
    have hfield : (extract s).accessible_transcript = c := by
      simp only [extract, extractTranscripts]
      rw [hc]
    rw [hfield]
    exact hne

theorem extracted_never_contains_end_marker_witness :
    ¬ RAW_END <:+:
      (extract "<<<RAW_TRANSCRIPT_START>>>A<<<RAW_TRANSCRIPT_END>>><<<ACCESSIBLE_NOTES_START>>>B<<<ACCESSIBLE_NOTES_END>>>".data).raw_transcript
    ∧ ¬ NOTES_END <:+:
      (extract "<<<RAW_TRANSCRIPT_START>>>A<<<RAW_TRANSCRIPT_END>>><<<ACCESSIBLE_NOTES_START>>>B<<<ACCESSIBLE_NOTES_END>>>".data).accessible_transcript :=
  ⟨(extracted_never_contains_end_marker _).1 "A".data (by decide),
   (extracted_never_contains_end_marker _).2 "B".data (by decide)⟩

end ClearHear
